import Mathlib

/-!
Shallow embedding of `scripts/seed_school_batch.py` (avantifellows/af_lms):
a one-shot reconciliation script that resolves (batch code, program tier,
school name) rows to database ids and idempotently inserts rows into the
`school_batch` join table, tracking unresolved keys and insert/skip counts.

Strings are modelled as lists of characters (`Str`) so that all string
processing is structurally recursive and kernel-evaluable.  The database is
modelled as in-memory lists of rows; SQL queries return rows in the store's
list order (the "incidental ordering" of the underlying store).
-/

namespace SeedSchoolBatch

abbrev Str := List Char

/-- The single-quote character, `'`. -/
def squote : Char := Char.ofNat 39

/-- Python `str.isspace` characters relevant to `str.strip()`. -/
def isPySpace (c : Char) : Bool :=
  c == ' ' || c == '\t' || c == '\n' || c == '\r' || c == '\x0b' || c == '\x0c'

/-- Python `s.strip()`: drop leading and trailing whitespace. -/
def pyStrip (s : Str) : Str :=
  ((s.dropWhile isPySpace).reverse.dropWhile isPySpace).reverse

/-- Python `s.strip(c)` for a single character `c`: drop all leading and
trailing occurrences of `c`. -/
def pyStripChar (c : Char) (s : Str) : Str :=
  ((s.dropWhile (fun x => x == c)).reverse.dropWhile (fun x => x == c)).reverse

/-- Python `s.split(sep)` for a one-character separator: split on every
occurrence, keeping empty pieces. -/
def splitOnChar (sep : Char) : Str → List Str
  | [] => [[]]
  | c :: cs =>
    if c == sep then [] :: splitOnChar sep cs
    else
      match splitOnChar sep cs with
      | [] => [[c]]
      | r :: rs => (c :: r) :: rs

/-- Python `s.split(sep, 1)` (with `sep` known to occur): the part before the
first occurrence of `sep` and the part after it. -/
def splitFirst (sep : Char) : Str → Str × Str
  | [] => ([], [])
  | c :: cs =>
    if c == sep then ([], cs)
    else
      let p := splitFirst sep cs
      (c :: p.1, p.2)

/-- Python `s.startswith("#")`. -/
def startsWithHash (s : Str) : Bool :=
  match s with
  | c :: _ => c == '#'
  | [] => false

/-- Python `"=" in s`. -/
def containsEq (s : Str) : Bool := s.any (fun c => c == '=')

/-! ## Data model

The database tables consumed by the script (spec §6): `batch(id, batch_id,
parent_id)` where the `batch_id` column is the human-readable batch code,
`school(id, name)`, and the read-write join table
`school_batch(school_id, batch_id, inserted_at, updated_at)`.
Timestamps (`NOW()`) are modelled as a `Nat` clock value passed in. -/

structure Batch where
  id : Nat
  batch_id : Str
  parent_id : Option Nat
deriving DecidableEq

structure School where
  id : Nat
  name : Str
deriving DecidableEq

structure SBRow where
  school_id : Nat
  batch_id : Nat
  inserted_at : Nat
  updated_at : Nat
deriving DecidableEq

/-- The database state.  SQL `SELECT`s without `ORDER BY` return rows in the
list order of the corresponding table (the store's incidental ordering). -/
structure Store where
  batches : List Batch
  schools : List School
  school_batch : List SBRow
deriving DecidableEq

/-- `SELECT 1 FROM school_batch WHERE school_id = %s AND batch_id = %s`
followed by `fetchone()` truthiness: does a row with this composite key
exist? -/
def sbHas (db : Store) (school_id batch_id : Nat) : Bool :=
  db.school_batch.any (fun r => r.school_id == school_id && r.batch_id == batch_id)

/-- `ensure_school_batch(cur, school_id, batch_id)` (source lines 130-144):
check existence by composite key; if absent, insert one row with
`inserted_at` and `updated_at` both set to the current time and return
`True`; otherwise return `False` without inserting.  The cursor is the
store; the pair returned is (was-inserted, updated store). -/
def ensure_school_batch (db : Store) (school_id batch_id now : Nat) : Bool × Store :=
  if sbHas db school_id batch_id then (false, db)
  else
    (true,
      { db with
          school_batch := db.school_batch ++ [⟨school_id, batch_id, now, now⟩] })

/-- The storage layer's raw `INSERT INTO school_batch ...`: the uniqueness
constraint on `(school_id, batch_id)` (spec §6) makes it raise a constraint
violation when a row with that key already exists. -/
def sb_insert (db : Store) (school_id batch_id now : Nat) : Except Unit Store :=
  if sbHas db school_id batch_id then Except.error ()
  else
    Except.ok
      { db with
          school_batch := db.school_batch ++ [⟨school_id, batch_id, now, now⟩] }

/-- `ensure_school_batch` with the raw failing insert made explicit: the
source has no `try/except`, so an error raised by the `INSERT` propagates
out of the function. -/
def ensure_school_batch_exc (db : Store) (school_id batch_id now : Nat) :
    Except Unit (Bool × Store) :=
  if sbHas db school_id batch_id then Except.ok (false, db)
  else
    match sb_insert db school_id batch_id now with
    | Except.error e => Except.error e
    | Except.ok db' => Except.ok (true, db')

/-- `ensure_school_batch` inside the check-then-insert race window of spec
§5: the existence check runs against `db_check`, while the `INSERT` runs
against `db_ins`, the state after a concurrent run may have inserted rows
between the two statements.  The source has no exception handling, so an
insert error propagates. -/
def ensure_school_batch_race (db_check db_ins : Store) (school_id batch_id now : Nat) :
    Except Unit (Bool × Store) :=
  if sbHas db_check school_id batch_id then Except.ok (false, db_ins)
  else
    match sb_insert db_ins school_id batch_id now with
    | Except.error e => Except.error e
    | Except.ok db' => Except.ok (true, db')

/-! ## Resolver lookups -/

/-- `SELECT id, parent_id FROM batch WHERE batch_id = %s` + `fetchone()`:
the first row (in store order) whose code column matches, if any. -/
def batchLookup (db : Store) (key : Str) : Option (Nat × Option Nat) :=
  match db.batches.filter (fun b => b.batch_id = key) with
  | [] => none
  | b :: _ => some (b.id, b.parent_id)

/-- `SELECT id FROM school WHERE name = %s` + `fetchall()`: all rows (in
store order) whose name matches. -/
def schoolLookup (db : Store) (name : Str) : List School :=
  db.schools.filter (fun s => s.name = name)

/-- `school_rows[0][0]`: the id of the first returned matching school row,
`none` when there is no match (`if not school_rows`). -/
def resolveSchoolId (db : Store) (name : Str) : Option Nat :=
  match schoolLookup db name with
  | [] => none
  | s :: _ => some s.id

/-! ## The main loop (source lines 155-200) -/

/-- The accumulated run state: the store plus the global counters and
unresolved-key lists.  `trace` is a ghost instrumentation field recording
the `(school_id, batch_id)` argument of every `ensure_school_batch` call
(every association attempt), in order; it affects nothing else. -/
structure RunState where
  db : Store
  inserted : Nat
  skipped : Nat
  missing_batches : List Str
  missing_schools : List Str
  trace : List (Nat × Nat)
deriving DecidableEq

/-- The state at script start: given store, zero counters, empty lists. -/
def initState (db : Store) : RunState :=
  ⟨db, 0, 0, [], [], []⟩

/-- One iteration of the `for raw_line in MAPPING_DATA.splitlines()` loop
(source lines 162-200): strip the line, skip it if blank; split on tabs and
strip the parts, skip if fewer than three; look up the batch by code
(recording a missing batch and skipping on no match); look up the school by
name (recording a missing school and skipping on no match); ensure the
direct association and, when the batch's parent id is truthy (non-`None`
and nonzero), the parent association, bumping the inserted/skipped counters
after each attempt. -/
def processLine (now : Nat) (st : RunState) (raw_line : Str) : RunState :=
  let line := pyStrip raw_line
  if line.isEmpty then st
  else
    match (splitOnChar '\t' line).map pyStrip with
    | batch_key :: _program :: school_name :: _ =>
      match batchLookup st.db batch_key with
      | none => { st with missing_batches := st.missing_batches ++ [batch_key] }
      | some (batch_id, parent_id) =>
        match resolveSchoolId st.db school_name with
        | none => { st with missing_schools := st.missing_schools ++ [school_name] }
        | some school_id =>
          let r1 := ensure_school_batch st.db school_id batch_id now
          let st1 : RunState :=
            { st with
                db := r1.2
                inserted := if r1.1 then st.inserted + 1 else st.inserted
                skipped := if r1.1 then st.skipped else st.skipped + 1
                trace := st.trace ++ [(school_id, batch_id)] }
          match parent_id with
          | some p =>
            if p ≠ 0 then
              let r2 := ensure_school_batch st1.db school_id p now
              { st1 with
                  db := r2.2
                  inserted := if r2.1 then st1.inserted + 1 else st1.inserted
                  skipped := if r2.1 then st1.skipped else st1.skipped + 1
                  trace := st1.trace ++ [(school_id, p)] }
            else st1
          | none => st1
    | _ => st

/-- `MAPPING_DATA.splitlines()` after the surrounding `.strip()` (source
lines 32-127, 162): the static tab-separated input table, one entry per
line. -/
def MAPPING_DATA_lines : List Str :=
  [ "EnableStudents_11_25_Engg_C01\tCoE\tJNV Adilabad".data,
    "EnableStudents_11_25_Engg_C02\tCoE\tJNV Barwani".data,
    "EnableStudents_11_25_Engg_C03\tCoE\tJNV Bundi".data,
    "EnableStudents_11_25_Engg_C04\tCoE\tJNV Chandigarh".data,
    "EnableStudents_11_25_Engg_C05\tCoE\tJNV Cuttack".data,
    "EnableStudents_11_25_Engg_C06\tCoE\tJNV Burdwan".data,
    "EnableStudents_11_25_Engg_C07\tCoE\tJNV Hassan".data,
    "EnableStudents_11_25_Engg_C08\tCoE\tJNV Kohima".data,
    "EnableStudents_11_25_Engg_C09\tCoE\tJNV Kokrajhar".data,
    "EnableStudents_11_25_Engg_C10\tCoE\tJNV Kolhapur".data,
    "EnableStudents_11_25_Engg_C11\tCoE\tJNV Kottayam".data,
    "EnableStudents_11_25_Engg_C12\tCoE\tJNV Kurnool".data,
    "EnableStudents_11_25_Engg_C13\tCoE\tJNV Lucknow".data,
    "EnableStudents_11_25_Engg_C14\tCoE\tJNV Mahisagar".data,
    "EnableStudents_11_25_Engg_C16\tCoE\tJNV Palghar".data,
    "EnableStudents_11_25_Engg_C17\tCoE\tJNV Puducherry".data,
    "EnableStudents_11_25_Engg_C18\tCoE\tJNV Thiruvananthapuram".data,
    "EnableStudents_11_25_Engg_N01\tNodal\tJNV Adilabad".data,
    "EnableStudents_11_25_Engg_N02\tNodal\tJNV Bharuch".data,
    "EnableStudents_11_25_Engg_N03\tNodal\tJNV Chamarajanagar".data,
    "EnableStudents_11_25_Engg_N04\tNodal\tJNV Chandrapur".data,
    "EnableStudents_11_25_Engg_N05\tNodal\tJNV Hassan".data,
    "EnableStudents_11_25_Engg_N06\tNodal\tJNV Karimnagar".data,
    "EnableStudents_11_25_Engg_N07\tNodal\tJNV Mandya".data,
    "EnableStudents_11_25_Engg_N08\tNodal\tJNV Nagpur".data,
    "EnableStudents_11_25_Engg_N09\tNodal\tJNV South Canara".data,
    "EnableStudents_11_25_Engg_N10\tNodal\tJNV Udupi".data,
    "EnableStudents_11_25_Engg_N11\tNodal\tJNV Wardha".data,
    "EnableStudents_11_25_Med_C04\tCoE\tJNV Chandigarh".data,
    "EnableStudents_11_25_Med_C08\tCoE\tJNV Kohima".data,
    "EnableStudents_11_25_Med_C09\tCoE\tJNV Kokrajhar".data,
    "EnableStudents_11_25_Med_C15\tCoE\tJNV Medak".data,
    "EnableStudents_11_25_Med_N01\tNodal\tJNV Adilabad".data,
    "EnableStudents_11_25_Med_N02\tNodal\tJNV Bharuch".data,
    "EnableStudents_11_25_Med_N03\tNodal\tJNV Chamarajanagar".data,
    "EnableStudents_11_25_Med_N04\tNodal\tJNV Chandrapur".data,
    "EnableStudents_11_25_Med_N05\tNodal\tJNV Hassan".data,
    "EnableStudents_11_25_Med_N06\tNodal\tJNV Karimnagar".data,
    "EnableStudents_11_25_Med_N07\tNodal\tJNV Mandya".data,
    "EnableStudents_11_25_Med_N08\tNodal\tJNV Nagpur".data,
    "EnableStudents_11_25_Med_N09\tNodal\tJNV South Canara".data,
    "EnableStudents_11_25_Med_N10\tNodal\tJNV Udupi".data,
    "EnableStudents_11_25_Med_N11\tNodal\tJNV Wardha".data,
    "EnableStudents_12_25_Engg_C01\tCoE\tJNV Adilabad".data,
    "EnableStudents_12_25_Engg_C02\tCoE\tJNV Barwani".data,
    "EnableStudents_12_25_Engg_C03\tCoE\tJNV Bundi".data,
    "EnableStudents_12_25_Engg_C04\tCoE\tJNV Chandigarh".data,
    "EnableStudents_12_25_Engg_C05\tCoE\tJNV Cuttack".data,
    "EnableStudents_12_25_Engg_C07\tCoE\tJNV Hassan".data,
    "EnableStudents_12_25_Engg_C08\tCoE\tJNV Kohima".data,
    "EnableStudents_12_25_Engg_C09\tCoE\tJNV Kokrajhar".data,
    "EnableStudents_12_25_Engg_C11\tCoE\tJNV Kottayam".data,
    "EnableStudents_12_25_Engg_C12\tCoE\tJNV Kurnool".data,
    "EnableStudents_12_25_Engg_C13\tCoE\tJNV Lucknow".data,
    "EnableStudents_12_25_Engg_C18\tCoE\tJNV Thiruvananthapuram".data,
    "EnableStudents_12_25_Engg_N01\tNodal\tJNV Adilabad".data,
    "EnableStudents_12_25_Engg_N02\tNodal\tJNV Bharuch".data,
    "EnableStudents_12_25_Engg_N03\tNodal\tJNV Chamarajanagar".data,
    "EnableStudents_12_25_Engg_N04\tNodal\tJNV Chandrapur".data,
    "EnableStudents_12_25_Engg_N05\tNodal\tJNV Hassan".data,
    "EnableStudents_12_25_Engg_N06\tNodal\tJNV Karimnagar".data,
    "EnableStudents_12_25_Engg_N07\tNodal\tJNV Mandya".data,
    "EnableStudents_12_25_Engg_N08\tNodal\tJNV Nagpur".data,
    "EnableStudents_12_25_Engg_N09\tNodal\tJNV South Canara".data,
    "EnableStudents_12_25_Engg_N10\tNodal\tJNV Udupi".data,
    "EnableStudents_12_25_Engg_N11\tNodal\tJNV Wardha".data,
    "EnableStudents_12_25_Med_C01\tCoE\tJNV Adilabad".data,
    "EnableStudents_12_25_Med_C04\tCoE\tJNV Chandigarh".data,
    "EnableStudents_12_25_Med_C07\tCoE\tJNV Hassan".data,
    "EnableStudents_12_25_Med_C08\tCoE\tJNV Kohima".data,
    "EnableStudents_12_25_Med_C09\tCoE\tJNV Kokrajhar".data,
    "EnableStudents_12_25_Med_N01\tNodal\tJNV Adilabad".data,
    "EnableStudents_12_25_Med_N02\tNodal\tJNV Bharuch".data,
    "EnableStudents_12_25_Med_N03\tNodal\tJNV Chamarajanagar".data,
    "EnableStudents_12_25_Med_N04\tNodal\tJNV Chandrapur".data,
    "EnableStudents_12_25_Med_N05\tNodal\tJNV Hassan".data,
    "EnableStudents_12_25_Med_N06\tNodal\tJNV Karimnagar".data,
    "EnableStudents_12_25_Med_N07\tNodal\tJNV Mandya".data,
    "EnableStudents_12_25_Med_N08\tNodal\tJNV Nagpur".data,
    "EnableStudents_12_25_Med_N09\tNodal\tJNV South Canara".data,
    "EnableStudents_12_25_Med_N10\tNodal\tJNV Udupi".data,
    "EnableStudents_12_25_Med_N11\tNodal\tJNV Wardha".data,
    "EMRSStudents_11_Alpha_Eng_25_C001\tCoE\tEMRS Bhopal".data,
    "EMRSStudents_12_Alpha_Eng_25_C001\tCoE\tEMRS Bhopal".data,
    "EnableStudents_12_25_Engg_N12\tNodal\tJNV Bhagalpur".data,
    "EnableStudents_12_25_Med_N12\tNodal\tJNV Bhagalpur".data,
    "EnableStudents_11_25_Engg_N12\tNodal\tJNV Bhagalpur".data,
    "EnableStudents_11_25_Med_N12\tNodal\tJNV Bhagalpur".data,
    "EnableStudents_12_25_Engg_N13\tNodal\tJNV Vaishali".data,
    "EnableStudents_12_25_Med_N13\tNodal\tJNV Vaishali".data,
    "EnableStudents_11_25_Engg_N13\tNodal\tJNV Vaishali".data,
    "EnableStudents_11_25_Med_N13\tNodal\tJNV Vaishali".data,
    "EMRSStudents_11_Alpha_Med_25_C001\tCoE\tEMRS Bhopal".data,
    "EMRSStudents_12_Alpha_Med_25_C001\tCoE\tEMRS Bhopal".data ]

/-- The whole loop over a list of input lines. -/
def runOn (now : Nat) (lines : List Str) (st : RunState) : RunState :=
  lines.foldl (processLine now) st

/-- The full script run over the static mapping table, starting from a given
database state. -/
def run (now : Nat) (db : Store) : RunState :=
  runOn now MAPPING_DATA_lines (initState db)

/-! ## Reporting (source lines 204-209) -/

/-- Lexicographic code-point comparison on strings — Python's `≤` on `str`,
which `sorted()` sorts by. -/
def strLe : Str → Str → Bool
  | [], _ => true
  | _ :: _, [] => false
  | a :: as, b :: bs =>
    if a.toNat < b.toNat then true
    else if b.toNat < a.toNat then false
    else strLe as bs

/-- `strLe` as a relation, for use with `List.insertionSort`. -/
def rle (a b : Str) : Prop := strLe a b = true

instance : DecidableRel rle := fun a b => by
  unfold rle; infer_instance

instance : IsTrans Str rle := by
  refine ⟨?_⟩
  simp only [rle]
  intro a
  induction a with
  | nil => intro b c _ _; rfl
  | cons x xs ih =>
    intro b c hab hbc
    cases b with
    | nil => simp [strLe] at hab
    | cons y ys =>
      cases c with
      | nil => simp [strLe] at hbc
      | cons z zs =>
        simp only [strLe] at hab hbc ⊢
        by_cases h1 : x.toNat < y.toNat
        · by_cases h2 : y.toNat < z.toNat
          · rw [if_pos (Nat.lt_trans h1 h2)]
          · rw [if_neg h2] at hbc
            by_cases h3 : z.toNat < y.toNat
            · rw [if_pos h3] at hbc; cases hbc
            · rw [if_pos (show x.toNat < z.toNat by omega)]
        · rw [if_neg h1] at hab
          by_cases h3 : y.toNat < x.toNat
          · rw [if_pos h3] at hab; cases hab
          · rw [if_neg h3] at hab
            by_cases h2 : y.toNat < z.toNat
            · rw [if_pos (show x.toNat < z.toNat by omega)]
            · rw [if_neg h2] at hbc
              by_cases h4 : z.toNat < y.toNat
              · rw [if_pos h4] at hbc; cases hbc
              · rw [if_neg h4] at hbc
                rw [if_neg (show ¬x.toNat < z.toNat by omega),
                  if_neg (show ¬z.toNat < x.toNat by omega)]
                exact ih ys zs hab hbc

instance : IsTotal Str rle := by
  refine ⟨?_⟩
  simp only [rle]
  intro a
  induction a with
  | nil => intro b; left; rfl
  | cons x xs ih =>
    intro b
    cases b with
    | nil => right; rfl
    | cons y ys =>
      simp only [strLe]
      by_cases h1 : x.toNat < y.toNat
      · left; rw [if_pos h1]
      · by_cases h2 : y.toNat < x.toNat
        · right; rw [if_pos h2]
        · rcases ih ys with h | h
          · left; rw [if_neg h1, if_neg h2]; exact h
          · right; rw [if_neg h2, if_neg h1]; exact h

/-- Python `sorted(set(l))`: the distinct elements of `l` in ascending
lexicographic order. -/
def sorted_set (l : List Str) : List Str :=
  List.insertionSort rle l.dedup

/-- The number of occurrences of `k` in `l`. -/
def countOcc (k : Str) (l : List Str) : Nat :=
  (l.filter (fun x => x = k)).length

/-- The values the summary step prints (source lines 204-209): the two
counters and `sorted(set(...))` of each unresolved-key list. -/
structure Report where
  inserted : Nat
  skipped : Nat
  missing_batches : List Str
  missing_schools : List Str
deriving DecidableEq

/-- Build the summary report from the accumulated run state. -/
def summarize (st : RunState) : Report :=
  ⟨st.inserted, st.skipped, sorted_set st.missing_batches,
    sorted_set st.missing_schools⟩

/-- The reporting step as a whole-world effect: it produces the report and
passes the database state through untouched (the `print`s read the
accumulated Python values only and run no SQL). -/
def emit_report (st : RunState) : Report × Store :=
  (summarize st, st.db)

/-! ## `load_env` (source lines 5-17) -/

/-- `os.environ`, modelled as an association list (first match wins; the
script only ever adds keys that are absent, so it stays single-valued when
it starts single-valued). -/
abbrev Env := List (Str × Str)

/-- Python `key in os.environ`. -/
def envHas (env : Env) (k : Str) : Bool :=
  env.any (fun p => p.1 == k)

/-- Python `os.environ.get(key)`: the first stored value for the key. -/
def getEnvVal (env : Env) (k : Str) : Option Str :=
  (env.find? (fun p => p.1 == k)).map Prod.snd

/-- One line of the env file (source lines 9-17): strip; ignore the line if
it is blank, starts with `#`, or has no `=`; split at the first `=`; strip
the key; strip the value and then its surrounding double and single quotes;
store the pair only when the key is non-empty and not already present. -/
def processEnvLine (env : Env) (raw_line : Str) : Env :=
  let line := pyStrip raw_line
  if line.isEmpty || startsWithHash line || !containsEq line then env
  else
    let kv := splitFirst '=' line
    let key := pyStrip kv.1
    let value := pyStripChar squote (pyStripChar '"' (pyStrip kv.2))
    if !key.isEmpty && !envHas env key then env ++ [(key, value)]
    else env

/-- `load_env(path)` (source lines 5-17): if the file does not exist
(`os.path.exists` fails, modelled as `none`) the environment is left as is;
otherwise every line of the file is processed in order. -/
def load_env (env : Env) (file : Option (List Str)) : Env :=
  match file with
  | none => env
  | some lines => lines.foldl processEnvLine env

/-! ## Derived observations used by the theorems -/

/-- What the main loop decides to do with one input line, as a function of
the store's lookup tables only: silently skip it, record a missing batch
code, record a missing school name, or perform a nonempty list of
association attempts. -/
inductive LineOutcome where
  | skip : LineOutcome
  | missingBatch (key : Str) : LineOutcome
  | missingSchool (name : Str) : LineOutcome
  | attempts (ps : List (Nat × Nat)) : LineOutcome
deriving DecidableEq

/-- The `LineOutcome` of one input line.  Mirrors the branch structure of
`processLine`. -/
def classifyLine (db : Store) (raw_line : Str) : LineOutcome :=
  let line := pyStrip raw_line
  if line.isEmpty then LineOutcome.skip
  else
    match (splitOnChar '\t' line).map pyStrip with
    | batch_key :: _program :: school_name :: _ =>
      match batchLookup db batch_key with
      | none => LineOutcome.missingBatch batch_key
      | some (batch_id, parent_id) =>
        match resolveSchoolId db school_name with
        | none => LineOutcome.missingSchool school_name
        | some school_id =>
          match parent_id with
          | some p =>
            if p ≠ 0 then LineOutcome.attempts [(school_id, batch_id), (school_id, p)]
            else LineOutcome.attempts [(school_id, batch_id)]
          | none => LineOutcome.attempts [(school_id, batch_id)]
    | _ => LineOutcome.skip

/-- One association attempt: call `ensure_school_batch` on the pair and bump
the inserted or skipped counter according to its result. -/
def applyAttempt (now : Nat) (st : RunState) (p : Nat × Nat) : RunState :=
  let r := ensure_school_batch st.db p.1 p.2 now
  { st with
      db := r.2
      inserted := if r.1 then st.inserted + 1 else st.inserted
      skipped := if r.1 then st.skipped else st.skipped + 1
      trace := st.trace ++ [p] }

/-- Apply a `LineOutcome` to the run state. -/
def applyOutcome (now : Nat) (st : RunState) : LineOutcome → RunState
  | LineOutcome.skip => st
  | LineOutcome.missingBatch k =>
      { st with missing_batches := st.missing_batches ++ [k] }
  | LineOutcome.missingSchool n =>
      { st with missing_schools := st.missing_schools ++ [n] }
  | LineOutcome.attempts ps => ps.foldl (applyAttempt now) st

/-- The association attempts (the `ensure_school_batch` call arguments) one
input line triggers, as determined by the store's lookup tables. -/
def attemptsOf (db : Store) (raw_line : Str) : List (Nat × Nat) :=
  match classifyLine db raw_line with
  | LineOutcome.attempts ps => ps
  | _ => []

/-- An input line that survives the blank-line and arity checks of the main
loop: non-blank after stripping, and at least three tab-separated fields. -/
def wellFormedLine (raw_line : Str) : Bool :=
  !(pyStrip raw_line).isEmpty &&
    match (splitOnChar '\t' (pyStrip raw_line)).map pyStrip with
    | _ :: _ :: _ :: _ => true
    | _ => false

/-- Processing step `st → st'` left a trace in the final accounting: it
bumped a counter or lengthened an unresolved-key list. -/
def accounted (st st' : RunState) : Prop :=
  st.inserted + st.skipped < st'.inserted + st'.skipped ∨
    st.missing_batches.length < st'.missing_batches.length ∨
    st.missing_schools.length < st'.missing_schools.length

/-- The composite key of a `school_batch` row. -/
def sbKey (r : SBRow) : Nat × Nat := (r.school_id, r.batch_id)

/-- Existence of a composite key among a list of `school_batch` rows. -/
def sbHasL (l : List SBRow) (k : Nat × Nat) : Bool :=
  l.any (fun r => r.school_id == k.1 && r.batch_id == k.2)

/-- `freshExt base ext` holds when every row of `ext`, read left to right,
has a composite key absent from `base` and from the rows of `ext` before
it: `ext` is a sequence of inserts each of which inserted a previously
absent row. -/
def freshExt : List SBRow → List SBRow → Prop
  | _, [] => True
  | base, r :: rest => sbHasL base (sbKey r) = false ∧ freshExt (base ++ [r]) rest

/-! ## Basic lemmas about `ensure_school_batch` -/

theorem sbHas_iff (db : Store) (sid bid : Nat) :
    sbHas db sid bid = true ↔
      ∃ r ∈ db.school_batch, r.school_id = sid ∧ r.batch_id = bid := by
  simp [sbHas, List.any_eq_true]

theorem ensure_of_has {db : Store} {sid bid : Nat} (now : Nat)
    (h : sbHas db sid bid = true) :
    ensure_school_batch db sid bid now = (false, db) := by
  simp [ensure_school_batch, h]

theorem ensure_of_not_has {db : Store} {sid bid : Nat} (now : Nat)
    (h : sbHas db sid bid = false) :
    ensure_school_batch db sid bid now =
      (true, { db with school_batch := db.school_batch ++ [⟨sid, bid, now, now⟩] }) := by
  simp [ensure_school_batch, h]

theorem ensure_batches (db : Store) (sid bid now : Nat) :
    (ensure_school_batch db sid bid now).2.batches = db.batches := by
  unfold ensure_school_batch; split <;> rfl

theorem ensure_schools (db : Store) (sid bid now : Nat) :
    (ensure_school_batch db sid bid now).2.schools = db.schools := by
  unfold ensure_school_batch; split <;> rfl

theorem sbHas_ext {db db' : Store} {sid bid : Nat}
    (hext : ∃ l, db'.school_batch = db.school_batch ++ l)
    (h : sbHas db sid bid = true) : sbHas db' sid bid = true := by
  obtain ⟨l, hl⟩ := hext
  simp only [sbHas, hl, List.any_append, Bool.or_eq_true]
  exact Or.inl h

theorem ensure_post (db : Store) (sid bid now : Nat) :
    sbHas (ensure_school_batch db sid bid now).2 sid bid = true := by
  unfold ensure_school_batch
  split
  · next h => exact h
  · simp [sbHas, List.any_append]

/-! ## The characterization of `processLine` by `classifyLine` -/

theorem processLine_eq (now : Nat) (st : RunState) (raw : Str) :
    processLine now st raw = applyOutcome now st (classifyLine st.db raw) := by
  unfold processLine classifyLine
  dsimp only
  split
  · rfl
  · split
    · split
      · rfl
      · split
        · rfl
        · split
          · split
            · simp only [applyOutcome, List.foldl_cons, List.foldl_nil]
              rfl
            · simp only [applyOutcome, List.foldl_cons, List.foldl_nil]
              rfl
          · simp only [applyOutcome, List.foldl_cons, List.foldl_nil]
            rfl
    · rfl

/-! ## Lemmas about single attempts and attempt sequences -/

theorem sbHas_sbHasL (db : Store) (sid bid : Nat) :
    sbHas db sid bid = sbHasL db.school_batch (sid, bid) := rfl

theorem sbHasL_append (l1 l2 : List SBRow) (k : Nat × Nat) :
    sbHasL (l1 ++ l2) k = (sbHasL l1 k || sbHasL l2 k) := by
  simp [sbHasL, List.any_append]

theorem freshExt_append {base : List SBRow} {l1 l2 : List SBRow}
    (h1 : freshExt base l1) (h2 : freshExt (base ++ l1) l2) :
    freshExt base (l1 ++ l2) := by
  induction l1 generalizing base with
  | nil => simpa using h2
  | cons r rest ih =>
    obtain ⟨hr, hrest⟩ := h1
    refine ⟨hr, ih hrest ?_⟩
    simpa [List.append_assoc] using h2

theorem applyAttempt_post (now : Nat) (st : RunState) (p : Nat × Nat) :
    sbHas (applyAttempt now st p).db p.1 p.2 = true := by
  unfold applyAttempt
  exact ensure_post st.db p.1 p.2 now

theorem applyAttempt_of_has {st : RunState} {p : Nat × Nat} (now : Nat)
    (h : sbHas st.db p.1 p.2 = true) :
    applyAttempt now st p
      = { st with skipped := st.skipped + 1, trace := st.trace ++ [p] } := by
  unfold applyAttempt
  rw [ensure_of_has now h]
  rfl

theorem applyAttempt_of_not_has {st : RunState} {p : Nat × Nat} (now : Nat)
    (h : sbHas st.db p.1 p.2 = false) :
    applyAttempt now st p
      = { st with
            db := { st.db with
                      school_batch := st.db.school_batch ++ [⟨p.1, p.2, now, now⟩] }
            inserted := st.inserted + 1
            trace := st.trace ++ [p] } := by
  unfold applyAttempt
  rw [ensure_of_not_has now h]
  rfl

theorem applyAttempt_spec (now : Nat) (st : RunState) (p : Nat × Nat) :
    (applyAttempt now st p).db.batches = st.db.batches ∧
    (applyAttempt now st p).db.schools = st.db.schools ∧
    (∃ l, (applyAttempt now st p).db.school_batch = st.db.school_batch ++ l ∧
      freshExt st.db.school_batch l) ∧
    (applyAttempt now st p).missing_batches = st.missing_batches ∧
    (applyAttempt now st p).missing_schools = st.missing_schools ∧
    (applyAttempt now st p).trace = st.trace ++ [p] ∧
    (applyAttempt now st p).inserted + (applyAttempt now st p).skipped
      = st.inserted + st.skipped + 1 := by
  by_cases h : sbHas st.db p.1 p.2 = true
  · rw [applyAttempt_of_has now h]
    exact ⟨rfl, rfl, ⟨[], by simp, trivial⟩, rfl, rfl, rfl, by dsimp; omega⟩
  · have h' : sbHas st.db p.1 p.2 = false := by simpa using h
    rw [applyAttempt_of_not_has now h']
    refine ⟨rfl, rfl, ⟨[⟨p.1, p.2, now, now⟩], rfl, ?_, trivial⟩, rfl, rfl, rfl,
      by dsimp; omega⟩
    simpa [sbHas_sbHasL, sbKey] using h'

theorem foldA_spec (now : Nat) (ps : List (Nat × Nat)) : ∀ st : RunState,
    (ps.foldl (applyAttempt now) st).db.batches = st.db.batches ∧
    (ps.foldl (applyAttempt now) st).db.schools = st.db.schools ∧
    (∃ l, (ps.foldl (applyAttempt now) st).db.school_batch
        = st.db.school_batch ++ l ∧ freshExt st.db.school_batch l) ∧
    (ps.foldl (applyAttempt now) st).missing_batches = st.missing_batches ∧
    (ps.foldl (applyAttempt now) st).missing_schools = st.missing_schools ∧
    (ps.foldl (applyAttempt now) st).trace = st.trace ++ ps ∧
    (ps.foldl (applyAttempt now) st).inserted + (ps.foldl (applyAttempt now) st).skipped
      = st.inserted + st.skipped + ps.length := by
  induction ps with
  | nil => intro st; exact ⟨rfl, rfl, ⟨[], by simp, trivial⟩, rfl, rfl, by simp, by simp⟩
  | cons p ps ih =>
    intro st
    obtain ⟨hb, hs, ⟨l1, hl1, hf1⟩, hmb, hms, htr, hct⟩ := applyAttempt_spec now st p
    obtain ⟨ihb, ihs, ⟨l2, hl2, hf2⟩, ihmb, ihms, ihtr, ihct⟩ := ih (applyAttempt now st p)
    simp only [List.foldl_cons]
    refine ⟨ihb.trans hb, ihs.trans hs, ⟨l1 ++ l2, ?_, ?_⟩,
      ihmb.trans hmb, ihms.trans hms, ?_, ?_⟩
    · rw [hl2, hl1, List.append_assoc]
    · exact freshExt_append hf1 (by rwa [← hl1])
    · rw [ihtr, htr, List.append_assoc]; rfl
    · rw [ihct, hct, List.length_cons]; omega

theorem foldA_covered (now : Nat) (ps : List (Nat × Nat)) : ∀ st : RunState,
    ∀ p ∈ ps, sbHas (ps.foldl (applyAttempt now) st).db p.1 p.2 = true := by
  induction ps with
  | nil => intro st p hp; cases hp
  | cons q ps ih =>
    intro st p hp
    rcases List.mem_cons.mp hp with hp | hp
    · subst hp
      simp only [List.foldl_cons]
      obtain ⟨-, -, ⟨l, hl, -⟩, -⟩ := foldA_spec now ps (applyAttempt now st p)
      exact sbHas_ext ⟨l, hl⟩ (applyAttempt_post now st p)
    · simpa only [List.foldl_cons] using ih (applyAttempt now st q) p hp

theorem foldA_of_covered (now : Nat) (ps : List (Nat × Nat)) : ∀ st : RunState,
    (∀ p ∈ ps, sbHas st.db p.1 p.2 = true) →
    ps.foldl (applyAttempt now) st
      = { st with skipped := st.skipped + ps.length, trace := st.trace ++ ps } := by
  induction ps with
  | nil => intro st _; simp
  | cons q ps ih =>
    intro st hcov
    have hq := hcov q (List.mem_cons_self q ps)
    simp only [List.foldl_cons]
    rw [applyAttempt_of_has now hq]
    have step := ih { st with skipped := st.skipped + 1, trace := st.trace ++ [q] }
      (fun p hp => hcov p (List.mem_cons_of_mem q hp))
    rw [step]
    simp [List.append_assoc, Nat.add_assoc, Nat.add_comm 1 ps.length]

/-! ## Congruence of the resolver in the read-only tables -/

theorem batchLookup_congr {db db' : Store} (h : db'.batches = db.batches) :
    batchLookup db' = batchLookup db := by
  funext k; unfold batchLookup; rw [h]

theorem resolveSchoolId_congr {db db' : Store} (h : db'.schools = db.schools) :
    resolveSchoolId db' = resolveSchoolId db := by
  funext n; unfold resolveSchoolId schoolLookup; rw [h]

theorem classifyLine_congr {db db' : Store} (hb : db'.batches = db.batches)
    (hs : db'.schools = db.schools) : classifyLine db' = classifyLine db := by
  funext raw
  unfold classifyLine
  rw [batchLookup_congr hb, resolveSchoolId_congr hs]

theorem attemptsOf_congr {db db' : Store} (hb : db'.batches = db.batches)
    (hs : db'.schools = db.schools) : attemptsOf db' = attemptsOf db := by
  funext raw
  unfold attemptsOf
  rw [classifyLine_congr hb hs]

/-! ## `processLine`-level lemmas -/

theorem attemptsOf_eq (db : Store) (raw : Str) :
    attemptsOf db raw
      = match classifyLine db raw with
        | LineOutcome.attempts ps => ps
        | _ => [] := rfl

theorem processLine_spec (now : Nat) (st : RunState) (raw : Str) :
    (processLine now st raw).db.batches = st.db.batches ∧
    (processLine now st raw).db.schools = st.db.schools ∧
    (∃ l, (processLine now st raw).db.school_batch = st.db.school_batch ++ l ∧
      freshExt st.db.school_batch l) ∧
    (∃ mb, (processLine now st raw).missing_batches = st.missing_batches ++ mb) ∧
    (∃ ms, (processLine now st raw).missing_schools = st.missing_schools ++ ms) ∧
    (processLine now st raw).trace = st.trace ++ attemptsOf st.db raw ∧
    (processLine now st raw).inserted + (processLine now st raw).skipped
      = st.inserted + st.skipped + (attemptsOf st.db raw).length := by
  rw [processLine_eq, attemptsOf_eq]
  cases h : classifyLine st.db raw with
  | skip =>
    exact ⟨rfl, rfl, ⟨[], by simp [applyOutcome], trivial⟩, ⟨[], by simp [applyOutcome]⟩,
      ⟨[], by simp [applyOutcome]⟩, by simp [applyOutcome], by simp [applyOutcome]⟩
  | missingBatch k =>
    exact ⟨rfl, rfl, ⟨[], by simp [applyOutcome], trivial⟩, ⟨[k], rfl⟩,
      ⟨[], by simp [applyOutcome]⟩, by simp [applyOutcome], by simp [applyOutcome]⟩
  | missingSchool n =>
    exact ⟨rfl, rfl, ⟨[], by simp [applyOutcome], trivial⟩, ⟨[], by simp [applyOutcome]⟩,
      ⟨[n], rfl⟩, by simp [applyOutcome], by simp [applyOutcome]⟩
  | attempts ps =>
    obtain ⟨h1, h2, h3, h4, h5, h6, h7⟩ := foldA_spec now ps st
    exact ⟨h1, h2, h3, ⟨[], by simp [applyOutcome, h4]⟩, ⟨[], by simp [applyOutcome, h5]⟩,
      h6, h7⟩

theorem processLine_covered (now : Nat) (st : RunState) (raw : Str) :
    ∀ p ∈ attemptsOf st.db raw, sbHas (processLine now st raw).db p.1 p.2 = true := by
  rw [processLine_eq, attemptsOf_eq]
  cases h : classifyLine st.db raw with
  | skip => intro p hp; cases hp
  | missingBatch k => intro p hp; cases hp
  | missingSchool n => intro p hp; cases hp
  | attempts ps => exact foldA_covered now ps st

theorem processLine_of_covered (now : Nat) (st : RunState) (raw : Str)
    (hcov : ∀ p ∈ attemptsOf st.db raw, sbHas st.db p.1 p.2 = true) :
    (processLine now st raw).db = st.db ∧
    (processLine now st raw).inserted = st.inserted := by
  rw [processLine_eq] at *
  rw [attemptsOf_eq] at hcov
  cases h : classifyLine st.db raw with
  | skip => exact ⟨rfl, rfl⟩
  | missingBatch k => exact ⟨rfl, rfl⟩
  | missingSchool n => exact ⟨rfl, rfl⟩
  | attempts ps =>
    rw [h] at hcov
    rw [show applyOutcome now st (LineOutcome.attempts ps) = ps.foldl (applyAttempt now) st
      from rfl]
    rw [foldA_of_covered now ps st hcov]
    exact ⟨rfl, rfl⟩

/-! ## `runOn`-level lemmas -/

theorem runOn_spec (now : Nat) (lines : List Str) : ∀ st : RunState,
    (runOn now lines st).db.batches = st.db.batches ∧
    (runOn now lines st).db.schools = st.db.schools ∧
    (∃ l, (runOn now lines st).db.school_batch = st.db.school_batch ++ l ∧
      freshExt st.db.school_batch l) ∧
    (∃ mb, (runOn now lines st).missing_batches = st.missing_batches ++ mb) ∧
    (∃ ms, (runOn now lines st).missing_schools = st.missing_schools ++ ms) ∧
    (runOn now lines st).inserted + (runOn now lines st).skipped + st.trace.length
      = st.inserted + st.skipped + (runOn now lines st).trace.length := by
  induction lines with
  | nil =>
    intro st
    exact ⟨rfl, rfl, ⟨[], by simp [runOn], trivial⟩, ⟨[], by simp [runOn]⟩,
      ⟨[], by simp [runOn]⟩, rfl⟩
  | cons l ls ih =>
    intro st
    obtain ⟨hb, hs, ⟨l1, hl1, hf1⟩, ⟨mb1, hmb1⟩, ⟨ms1, hms1⟩, htr, hct⟩ :=
      processLine_spec now st l
    obtain ⟨ihb, ihs, ⟨l2, hl2, hf2⟩, ⟨mb2, hmb2⟩, ⟨ms2, hms2⟩, ihct⟩ :=
      ih (processLine now st l)
    rw [show runOn now (l :: ls) st = runOn now ls (processLine now st l) from rfl] at *
    refine ⟨ihb.trans hb, ihs.trans hs, ⟨l1 ++ l2, ?_, ?_⟩, ⟨mb1 ++ mb2, ?_⟩,
      ⟨ms1 ++ ms2, ?_⟩, ?_⟩
    · rw [hl2, hl1, List.append_assoc]
    · exact freshExt_append hf1 (by rwa [← hl1])
    · rw [hmb2, hmb1, List.append_assoc]
    · rw [hms2, hms1, List.append_assoc]
    · have hlen := congrArg List.length htr
      simp only [List.length_append] at hlen
      omega

theorem runOn_covered (now : Nat) (lines : List Str) : ∀ st : RunState,
    ∀ raw ∈ lines, ∀ p ∈ attemptsOf (runOn now lines st).db raw,
      sbHas (runOn now lines st).db p.1 p.2 = true := by
  induction lines with
  | nil => intro st raw hraw; cases hraw
  | cons l ls ih =>
    intro st raw hraw p hp
    rw [show runOn now (l :: ls) st = runOn now ls (processLine now st l) from rfl] at *
    rcases List.mem_cons.mp hraw with h | h
    · subst h
      obtain ⟨hb1, hs1, -⟩ := processLine_spec now st raw
      obtain ⟨hb2, hs2, ⟨l2, hl2, -⟩, -⟩ := runOn_spec now ls (processLine now st raw)
      have hA : attemptsOf (runOn now ls (processLine now st raw)).db = attemptsOf st.db :=
        attemptsOf_congr (hb2.trans hb1) (hs2.trans hs1)
      rw [hA] at hp
      exact sbHas_ext ⟨l2, hl2⟩ (processLine_covered now st raw p hp)
    · exact ih (processLine now st l) raw h p hp

theorem runOn_of_covered (now : Nat) (lines : List Str) : ∀ st : RunState,
    (∀ raw ∈ lines, ∀ p ∈ attemptsOf st.db raw, sbHas st.db p.1 p.2 = true) →
    (runOn now lines st).db = st.db ∧ (runOn now lines st).inserted = st.inserted := by
  induction lines with
  | nil => intro st _; exact ⟨rfl, rfl⟩
  | cons l ls ih =>
    intro st hcov
    have h1 := processLine_of_covered now st l (hcov l (List.mem_cons_self l ls))
    rw [show runOn now (l :: ls) st = runOn now ls (processLine now st l) from rfl]
    have hcov' : ∀ raw ∈ ls, ∀ p ∈ attemptsOf (processLine now st l).db raw,
        sbHas (processLine now st l).db p.1 p.2 = true := by
      rw [h1.1]
      exact fun raw hraw => hcov raw (List.mem_cons_of_mem l hraw)
    obtain ⟨h2, h3⟩ := ih (processLine now st l) hcov'
    rw [h2, h1.1, h3, h1.2]
    exact ⟨rfl, rfl⟩

/-! ## Order lemmas for the sorted report -/

theorem sorted_set_perm (l : List Str) : List.Perm (sorted_set l) l.dedup :=
  List.perm_insertionSort rle l.dedup

theorem sorted_set_nodup (l : List Str) : (sorted_set l).Nodup :=
  (sorted_set_perm l).symm.nodup (List.nodup_dedup l)

theorem sorted_set_mem (l : List Str) (k : Str) : k ∈ sorted_set l ↔ k ∈ l := by
  rw [(sorted_set_perm l).mem_iff, List.mem_dedup]

theorem sorted_set_sorted (l : List Str) : List.Sorted rle (sorted_set l) :=
  List.sorted_insertionSort rle l.dedup

theorem countOcc_cons (k x : Str) (xs : List Str) :
    countOcc k (x :: xs) = (if x = k then 1 else 0) + countOcc k xs := by
  simp only [countOcc, List.filter_cons]
  by_cases h : x = k
  · simp [h, Nat.add_comm]
  · simp [h]

theorem countOcc_eq_zero {l : List Str} {k : Str} (h : k ∉ l) : countOcc k l = 0 := by
  induction l with
  | nil => rfl
  | cons x xs ih =>
    rw [countOcc_cons]
    have hx : ¬x = k := fun he => h (he ▸ List.mem_cons_self x xs)
    rw [if_neg hx, ih (fun hm => h (List.mem_cons_of_mem x hm))]

theorem countOcc_eq_one {l : List Str} {k : Str} (hn : l.Nodup) (hm : k ∈ l) :
    countOcc k l = 1 := by
  induction l with
  | nil => cases hm
  | cons x xs ih =>
    rw [List.nodup_cons] at hn
    rw [countOcc_cons]
    rcases List.mem_cons.mp hm with h | h
    · subst h
      rw [if_pos rfl, countOcc_eq_zero hn.1]
    · have hx : ¬x = k := fun he => hn.1 (he ▸ h)
      rw [if_neg hx, ih hn.2 h]

theorem count_sorted_set {l : List Str} {k : Str} (h : k ∈ l) :
    countOcc k (sorted_set l) = 1 :=
  countOcc_eq_one (sorted_set_nodup l) ((sorted_set_mem l k).mpr h)

/-! ## Well-formed lines are always accounted for -/

theorem classify_of_wf (db : Store) (raw : Str) (h : wellFormedLine raw = true) :
    (∃ k, classifyLine db raw = LineOutcome.missingBatch k) ∨
    (∃ n, classifyLine db raw = LineOutcome.missingSchool n) ∨
    (∃ ps, classifyLine db raw = LineOutcome.attempts ps ∧ ps ≠ []) := by
  unfold wellFormedLine at h
  rw [Bool.and_eq_true] at h
  obtain ⟨h1, h2⟩ := h
  have h1' : (pyStrip raw).isEmpty = false := by simpa using h1
  unfold classifyLine
  dsimp only
  rw [h1']
  simp only [Bool.false_eq_true, if_false]
  rcases hm : (splitOnChar '\t' (pyStrip raw)).map pyStrip with
    _ | ⟨bk, _ | ⟨pr, _ | ⟨sn, rest⟩⟩⟩ <;> rw [hm] at h2
  · cases h2
  · cases h2
  · cases h2
  · dsimp only
    rcases hb : batchLookup db bk with _ | ⟨bid, pid⟩
    · exact Or.inl ⟨bk, rfl⟩
    · rcases hs : resolveSchoolId db sn with _ | sid
      · exact Or.inr (Or.inl ⟨sn, rfl⟩)
      · rcases pid with _ | p
        · exact Or.inr (Or.inr ⟨[(sid, bid)], rfl, by simp⟩)
        · dsimp only
          by_cases hp : p ≠ 0
          · rw [if_pos hp]
            exact Or.inr (Or.inr ⟨[(sid, bid), (sid, p)], rfl, by simp⟩)
          · rw [if_neg hp]
            exact Or.inr (Or.inr ⟨[(sid, bid)], rfl, by simp⟩)

theorem accounted_of_wf (now : Nat) (st : RunState) (raw : Str)
    (h : wellFormedLine raw = true) : accounted st (processLine now st raw) := by
  rw [processLine_eq]
  unfold accounted
  rcases classify_of_wf st.db raw h with ⟨k, hk⟩ | ⟨n, hn⟩ | ⟨ps, hps, hne⟩
  · rw [hk]
    right; left
    simp [applyOutcome]
  · rw [hn]
    right; right
    simp [applyOutcome]
  · rw [hps]
    left
    obtain ⟨-, -, -, -, -, -, hct⟩ := foldA_spec now ps st
    have hlen : 0 < ps.length := List.length_pos.mpr hne
    have : (applyOutcome now st (LineOutcome.attempts ps))
        = ps.foldl (applyAttempt now) st := rfl
    rw [this]
    omega

theorem mapping_lines_wf : MAPPING_DATA_lines.all wellFormedLine = true := by decide

/-! ## First-match characterization of a filter head -/

theorem filter_head_first {α : Type} (P : α → Prop) [DecidablePred P] :
    ∀ (l : List α) (s : α) (rest : List α),
      l.filter (fun x => decide (P x)) = s :: rest →
      ∃ pre post, l = pre ++ s :: post ∧ P s ∧ ∀ t ∈ pre, ¬P t := by
  intro l
  induction l with
  | nil => intro s rest h; cases h
  | cons x xs ih =>
    intro s rest h
    by_cases hx : P x
    · rw [List.filter_cons_of_pos (by simpa using hx)] at h
      obtain ⟨he, -⟩ := List.cons_eq_cons.mp h
      subst he
      exact ⟨[], xs, rfl, hx, fun t ht => absurd ht (List.not_mem_nil t)⟩
    · rw [List.filter_cons_of_neg (by simpa using hx)] at h
      obtain ⟨pre, post, hl, hs, hpre⟩ := ih s rest h
      refine ⟨x :: pre, post, by rw [hl]; rfl, hs, ?_⟩
      intro t ht
      rcases List.mem_cons.mp ht with ht | ht
      · subst ht; exact hx
      · exact hpre t ht

/-! ## `load_env` lemmas -/

theorem envHas_append_left {env : Env} {k : Str} (ext : Env)
    (h : envHas env k = true) : envHas (env ++ ext) k = true := by
  simp only [envHas, List.any_append, Bool.or_eq_true]
  exact Or.inl h

theorem getEnvVal_append_of_has {env : Env} {k : Str} (ext : Env)
    (h : envHas env k = true) : getEnvVal (env ++ ext) k = getEnvVal env k := by
  induction env with
  | nil => cases h
  | cons p env ih =>
    by_cases hp : p.1 == k
    · simp [getEnvVal, List.find?, hp]
    · simp only [envHas, List.any_cons, Bool.or_eq_true] at h
      rcases h with h | h
      · exact absurd h hp
      · simp only [List.cons_append, getEnvVal, List.find?, hp]
        exact ih h

theorem processEnvLine_skip (env : Env) (raw : Str)
    (h : (pyStrip raw).isEmpty = true ∨ startsWithHash (pyStrip raw) = true ∨
      containsEq (pyStrip raw) = false) :
    processEnvLine env raw = env := by
  unfold processEnvLine
  dsimp only
  rcases h with h | h | h
  · rw [h]; rfl
  · rw [h]; simp
  · rw [h]; simp

theorem processEnvLine_cases (env : Env) (raw : Str) :
    processEnvLine env raw = env ∨
    ∃ k v, k ≠ [] ∧ envHas env k = false ∧ processEnvLine env raw = env ++ [(k, v)] := by
  unfold processEnvLine
  dsimp only
  split
  · left; rfl
  · split
    · next hcond =>
      rw [Bool.and_eq_true] at hcond
      obtain ⟨hk, he⟩ := hcond
      right
      refine ⟨pyStrip (splitFirst '=' (pyStrip raw)).1,
        pyStripChar squote (pyStripChar '"' (pyStrip (splitFirst '=' (pyStrip raw)).2)),
        ?_, by simpa using he, rfl⟩
      intro hnil
      rw [hnil] at hk
      cases hk
    · left; rfl

theorem foldl_env_of_has (lines : List Str) : ∀ (env : Env) (k : Str),
    envHas env k = true →
    envHas (lines.foldl processEnvLine env) k = true ∧
    getEnvVal (lines.foldl processEnvLine env) k = getEnvVal env k := by
  induction lines with
  | nil => intro env k h; exact ⟨h, rfl⟩
  | cons raw lines ih =>
    intro env k h
    simp only [List.foldl_cons]
    rcases processEnvLine_cases env raw with hc | ⟨k', v', -, -, hc⟩
    · rw [hc]
      exact ih env k h
    · rw [hc]
      obtain ⟨ih1, ih2⟩ := ih (env ++ [(k', v')]) k (envHas_append_left _ h)
      exact ⟨ih1, ih2.trans (getEnvVal_append_of_has _ h)⟩

/-! ## Claim theorems -/

/-- C1: running the reconciliation a second time against the same input
lines and the database state left by the first run performs zero new
inserts: the second run's Inserted counter is 0, its Skipped counter equals
the number of association attempts it made (the length of its attempt
trace), and it leaves the store exactly as the first run left it. -/
theorem second_run_all_skips (now now2 : Nat) (lines : List Str) (db : Store) :
    (runOn now2 lines (initState (runOn now lines (initState db)).db)).inserted = 0 ∧
    (runOn now2 lines (initState (runOn now lines (initState db)).db)).skipped
      = (runOn now2 lines (initState (runOn now lines (initState db)).db)).trace.length ∧
    (runOn now2 lines (initState (runOn now lines (initState db)).db)).db
      = (runOn now lines (initState db)).db := by
  have hcov : ∀ raw ∈ lines,
      ∀ p ∈ attemptsOf (initState (runOn now lines (initState db)).db).db raw,
        sbHas (initState (runOn now lines (initState db)).db).db p.1 p.2 = true :=
    runOn_covered now lines (initState db)
  obtain ⟨hdb, hins⟩ :=
    runOn_of_covered now2 lines (initState (runOn now lines (initState db)).db) hcov
  have hct := (runOn_spec now2 lines (initState (runOn now lines (initState db)).db)).2.2.2.2.2
  have hz1 : (initState (runOn now lines (initState db)).db).trace.length = 0 := rfl
  have hz2 : (initState (runOn now lines (initState db)).db).inserted = 0 := rfl
  have hz3 : (initState (runOn now lines (initState db)).db).skipped = 0 := rfl
  rw [hz1, hz2, hz3] at hct
  rw [hz2] at hins
  refine ⟨hins, ?_, ?_⟩
  · omega
  · rw [hdb]; rfl

/-- C2 counterexample: with two school rows of the same name, ids 5 then 3
in store order, the resolver returns 5 — the first returned row — although
a matching record with the lower id 3 exists; permuting the two rows makes
it return 3 instead, so the choice tracks the store's incidental row order,
not the lowest id. -/
theorem resolver_not_lowest_id :
    resolveSchoolId ⟨[], [⟨5, "A".data⟩, ⟨3, "A".data⟩], []⟩ "A".data = some 5 ∧
    (⟨3, "A".data⟩ : School) ∈ (⟨[], [⟨5, "A".data⟩, ⟨3, "A".data⟩], []⟩ : Store).schools ∧
    (3 : Nat) < 5 ∧
    resolveSchoolId ⟨[], [⟨3, "A".data⟩, ⟨5, "A".data⟩], []⟩ "A".data = some 3 := by
  decide

/-- C2 amended: when a school name matches several records the resolver
takes the first matching row in the store's returned order — the school
table decomposes as pre ++ s :: post with no match in pre and the resolved
id is s.id.  For a fixed database state (hence fixed row order) repeated
runs therefore resolve to the same id, but the tie-break is incidental row
order, not the lowest id. -/
theorem resolveSchoolId_first_match (db : Store) (name : Str) (i : Nat)
    (h : resolveSchoolId db name = some i) :
    ∃ pre s post, db.schools = pre ++ s :: post ∧ s.id = i ∧ s.name = name ∧
      ∀ t ∈ pre, t.name ≠ name := by
  unfold resolveSchoolId schoolLookup at h
  rcases hf : db.schools.filter (fun s => s.name = name) with _ | ⟨s, rest⟩
  · rw [hf] at h; cases h
  · rw [hf] at h
    obtain ⟨pre, post, hl, hs, hpre⟩ :=
      filter_head_first (fun x => x.name = name) db.schools s rest hf
    exact ⟨pre, s, post, hl, Option.some.inj h, hs, hpre⟩

/-- C2 witness: the amended claim at the two-row store of the
counterexample, resolving to the first row's id 5. -/
theorem resolveSchoolId_first_match_witness :
    ∃ pre s post,
      (⟨[], [⟨5, "A".data⟩, ⟨3, "A".data⟩], []⟩ : Store).schools = pre ++ s :: post ∧
      s.id = 5 ∧ s.name = "A".data ∧ ∀ t ∈ pre, t.name ≠ "A".data :=
  resolveSchoolId_first_match ⟨[], [⟨5, "A".data⟩, ⟨3, "A".data⟩], []⟩ "A".data 5 (by decide)

/-- C3 counterexample: when the INSERT inside ensure_school_batch hits the
uniqueness constraint on (school_id, batch_id) — a row for the key appeared
between the existence check and the insert — the violation is not absorbed
into a skip: the call evaluates to an error. -/
theorem constraint_violation_propagates :
    sbHas ⟨[], [], [⟨1, 2, 0, 0⟩]⟩ 1 2 = true ∧
    ensure_school_batch_race ⟨[], [], []⟩ ⟨[], [], [⟨1, 2, 0, 0⟩]⟩ 1 2 7
      = Except.error () :=
  ⟨rfl, rfl⟩

/-- C3 amended: ensure_school_batch contains no handler for a
uniqueness-constraint violation.  Sequentially, the pre-check shields the
INSERT, so the call never errors and agrees with the pure
ensure_school_batch; but whenever the INSERT does raise (key present at
insert time though absent at check time), the error propagates out of the
call instead of being converted to an already-exists skip. -/
theorem ensure_no_violation_handler :
    (∀ db : Store, ∀ sid bid now : Nat,
      ensure_school_batch_exc db sid bid now
        = Except.ok (ensure_school_batch db sid bid now)) ∧
    (∀ db_check db_ins : Store, ∀ sid bid now : Nat,
      sbHas db_check sid bid = false → sbHas db_ins sid bid = true →
      ensure_school_batch_race db_check db_ins sid bid now = Except.error ()) := by
  constructor
  · intro db sid bid now
    unfold ensure_school_batch_exc ensure_school_batch sb_insert
    by_cases h : sbHas db sid bid <;> simp [h]
  · intro dbc dbi sid bid now h1 h2
    unfold ensure_school_batch_race sb_insert
    simp [h1, h2]

/-- C3 witness: the amended claim at concrete stores — a sequential call on
the empty store succeeds, and a raced call whose insert-time store already
holds the key errors out. -/
theorem ensure_no_violation_handler_witness :
    ensure_school_batch_exc ⟨[], [], []⟩ 1 2 7
      = Except.ok (ensure_school_batch ⟨[], [], []⟩ 1 2 7) ∧
    ensure_school_batch_race ⟨[], [], [⟨9, 9, 0, 0⟩]⟩ ⟨[], [], [⟨9, 9, 0, 0⟩, ⟨1, 2, 0, 0⟩]⟩
        1 2 7 = Except.error () :=
  ⟨ensure_no_violation_handler.1 ⟨[], [], []⟩ 1 2 7,
   ensure_no_violation_handler.2 ⟨[], [], [⟨9, 9, 0, 0⟩]⟩
     ⟨[], [], [⟨9, 9, 0, 0⟩, ⟨1, 2, 0, 0⟩]⟩ 1 2 7 (by decide) (by decide)⟩

/-- C4 counterexample: a mapping row whose resolved batch record has
parent_id 0 — non-null — triggers exactly one association attempt, not two:
Python's `if parent_id:` truthiness treats 0 like None. -/
theorem parent_zero_not_attempted :
    batchLookup ⟨[⟨0, "ROOT".data, none⟩, ⟨1, "B1".data, some 0⟩],
      [⟨7, "S".data⟩], []⟩ "B1".data = some (1, some 0) ∧
    (processLine 9 (initState ⟨[⟨0, "ROOT".data, none⟩, ⟨1, "B1".data, some 0⟩],
      [⟨7, "S".data⟩], []⟩) "B1\tCoE\tS".data).trace = [(7, 1)] := by
  decide

/-- C4 amended: for every mapping row whose resolved batch record has a
non-null and nonzero parent id, exactly two association attempts are made —
(school, batch) then (school, parent) — and the parent attempt is
unconditional, happening whatever the direct attempt returned.  (A parent
id of 0, though non-null, is treated like null by `if parent_id:`.) -/
theorem parent_propagation (now : Nat) (st : RunState) (raw : Str)
    (bk pr sn : Str) (rest : List Str) (bid p sid : Nat)
    (hm : (splitOnChar '\t' (pyStrip raw)).map pyStrip = bk :: pr :: sn :: rest)
    (hne : (pyStrip raw).isEmpty = false)
    (hb : batchLookup st.db bk = some (bid, some p))
    (hp : p ≠ 0)
    (hs : resolveSchoolId st.db sn = some sid) :
    (processLine now st raw).trace = st.trace ++ [(sid, bid), (sid, p)] ∧
    (processLine now st raw).inserted + (processLine now st raw).skipped
      = st.inserted + st.skipped + 2 := by
  have hcond : ¬((pyStrip raw).isEmpty = true) := by simp [hne]
  have hcl : classifyLine st.db raw
      = LineOutcome.attempts [(sid, bid), (sid, p)] := by
    unfold classifyLine
    dsimp only
    rw [if_neg hcond, hm]
    dsimp only
    rw [hb]
    dsimp only
    rw [hs]
    dsimp only
    rw [if_pos hp]
  rw [processLine_eq, hcl]
  obtain ⟨-, -, -, -, -, htr, hct⟩ := foldA_spec now [(sid, bid), (sid, p)] st
  exact ⟨htr, hct⟩

/-- C4 witness: the amended claim at a concrete store whose batch B has
parent 2: processing the row traces both attempts (7, 1) and (7, 2). -/
theorem parent_propagation_witness :
    (processLine 0 (initState ⟨[⟨1, "B".data, some 2⟩], [⟨7, "S".data⟩], []⟩)
        "B\tCoE\tS".data).trace
      = (initState ⟨[⟨1, "B".data, some 2⟩], [⟨7, "S".data⟩], []⟩).trace
          ++ [(7, 1), (7, 2)] ∧
    (processLine 0 (initState ⟨[⟨1, "B".data, some 2⟩], [⟨7, "S".data⟩], []⟩)
        "B\tCoE\tS".data).inserted
      + (processLine 0 (initState ⟨[⟨1, "B".data, some 2⟩], [⟨7, "S".data⟩], []⟩)
        "B\tCoE\tS".data).skipped
      = (initState ⟨[⟨1, "B".data, some 2⟩], [⟨7, "S".data⟩], []⟩).inserted
        + (initState ⟨[⟨1, "B".data, some 2⟩], [⟨7, "S".data⟩], []⟩).skipped + 2 :=
  parent_propagation 0 (initState ⟨[⟨1, "B".data, some 2⟩], [⟨7, "S".data⟩], []⟩)
    "B\tCoE\tS".data "B".data "CoE".data "S".data [] 1 2 7
    (by decide) (by decide) (by decide) (by decide) (by decide)

/-- C5: ensure_school_batch returns true iff no school_batch row with the
composite key existed before the call (existence meaning some stored row
carries that (school_id, batch_id)); when absent it appends exactly one row
with inserted_at and updated_at both set to the current time, and when
present it returns false and leaves the store untouched. -/
theorem ensureAssociation_contract (db : Store) (sid bid now : Nat) :
    ((ensure_school_batch db sid bid now).1 = true ↔ sbHas db sid bid = false) ∧
    (sbHas db sid bid = true ↔
      ∃ r ∈ db.school_batch, r.school_id = sid ∧ r.batch_id = bid) ∧
    (sbHas db sid bid = false →
      (ensure_school_batch db sid bid now).2.school_batch
        = db.school_batch ++ [⟨sid, bid, now, now⟩]) ∧
    (sbHas db sid bid = true → ensure_school_batch db sid bid now = (false, db)) := by
  refine ⟨?_, sbHas_iff db sid bid, ?_, ?_⟩
  · by_cases h : sbHas db sid bid
    · rw [ensure_of_has now h]; simp [h]
    · have h' : sbHas db sid bid = false := by simpa using h
      rw [ensure_of_not_has now h']; simp [h']
  · intro h
    rw [ensure_of_not_has now h]
  · intro h
    exact ensure_of_has now h

/-- C5 witness: on the empty store the call inserts the single timestamped
row and returns true; on a store already holding the key it returns false
and changes nothing. -/
theorem ensureAssociation_contract_witness :
    (ensure_school_batch ⟨[], [], []⟩ 1 2 5).1 = true ∧
    (ensure_school_batch ⟨[], [], []⟩ 1 2 5).2.school_batch = [⟨1, 2, 5, 5⟩] ∧
    ensure_school_batch ⟨[], [], [⟨1, 2, 0, 0⟩]⟩ 1 2 5
      = (false, ⟨[], [], [⟨1, 2, 0, 0⟩]⟩) := by
  refine ⟨(ensureAssociation_contract ⟨[], [], []⟩ 1 2 5).1.mpr (by decide), ?_, ?_⟩
  · have h := (ensureAssociation_contract ⟨[], [], []⟩ 1 2 5).2.2.1 (by decide)
    simpa using h
  · exact (ensureAssociation_contract ⟨[], [], [⟨1, 2, 0, 0⟩]⟩ 1 2 5).2.2.2 (by decide)

/-- C6: a row whose batch code matches no batch record only appends that
code to the missing-batches list: no ensure_school_batch call happens (the
attempt trace is unchanged), no counter or other field changes, and the run
continues; after any continuation of the run the code appears in the
accumulated list and exactly once in the de-duplicated sorted
missing-batches report. -/
theorem missing_batch_accounting (now : Nat) (st : RunState) (raw : Str)
    (bk pr sn : Str) (rest lines : List Str)
    (hm : (splitOnChar '\t' (pyStrip raw)).map pyStrip = bk :: pr :: sn :: rest)
    (hne : (pyStrip raw).isEmpty = false)
    (hb : batchLookup st.db bk = none) :
    processLine now st raw
      = { st with missing_batches := st.missing_batches ++ [bk] } ∧
    bk ∈ (runOn now lines (processLine now st raw)).missing_batches ∧
    countOcc bk
      (sorted_set (runOn now lines (processLine now st raw)).missing_batches) = 1 := by
  have hcond : ¬((pyStrip raw).isEmpty = true) := by simp [hne]
  have hcl : classifyLine st.db raw = LineOutcome.missingBatch bk := by
    unfold classifyLine
    dsimp only
    rw [if_neg hcond, hm]
    dsimp only
    rw [hb]
  have h1 : processLine now st raw
      = { st with missing_batches := st.missing_batches ++ [bk] } := by
    rw [processLine_eq, hcl]
    rfl
  have hmem : bk ∈ (runOn now lines (processLine now st raw)).missing_batches := by
    obtain ⟨-, -, -, ⟨mb, hmb⟩, -⟩ := runOn_spec now lines (processLine now st raw)
    rw [hmb, h1]
    simp
  exact ⟨h1, hmem, count_sorted_set hmem⟩

/-- C6 witness: the theorem at a store with one school and no batches, for
the first mapping row and an empty continuation. -/
theorem missing_batch_accounting_witness :
    processLine 3 (initState ⟨[], [⟨7, "S".data⟩], []⟩) "GHOST\tCoE\tS".data
      = { initState ⟨[], [⟨7, "S".data⟩], []⟩ with
            missing_batches :=
              (initState ⟨[], [⟨7, "S".data⟩], []⟩).missing_batches ++ ["GHOST".data] } ∧
    "GHOST".data ∈ (runOn 3 []
      (processLine 3 (initState ⟨[], [⟨7, "S".data⟩], []⟩)
        "GHOST\tCoE\tS".data)).missing_batches ∧
    countOcc "GHOST".data
      (sorted_set (runOn 3 []
        (processLine 3 (initState ⟨[], [⟨7, "S".data⟩], []⟩)
          "GHOST\tCoE\tS".data)).missing_batches) = 1 :=
  missing_batch_accounting 3 (initState ⟨[], [⟨7, "S".data⟩], []⟩) "GHOST\tCoE\tS".data
    "GHOST".data "CoE".data "S".data [] [] (by decide) (by decide) (by decide)

/-- C7: every line of the static input mapping data is accounted for by the
run: processing it from any intermediate state either increases the
inserted+skipped counter total or lengthens one of the unresolved-key
lists — no line of the table is dropped without trace. -/
theorem every_mapping_line_accounted (now : Nat) (st : RunState) (raw : Str)
    (h : raw ∈ MAPPING_DATA_lines) : accounted st (processLine now st raw) :=
  accounted_of_wf now st raw (List.all_eq_true.mp mapping_lines_wf raw h)

/-- C7 witness: the first mapping line, processed from the empty store's
initial state, is accounted for. -/
theorem every_mapping_line_accounted_witness :
    accounted (initState ⟨[], [], []⟩)
      (processLine 0 (initState ⟨[], [], []⟩)
        "EnableStudents_11_25_Engg_C01\tCoE\tJNV Adilabad".data) :=
  every_mapping_line_accounted 0 (initState ⟨[], [], []⟩)
    "EnableStudents_11_25_Engg_C01\tCoE\tJNV Adilabad".data (by decide)

/-- C8: after processing all rows the emitted report carries the final
inserted and skipped counters and the de-duplicated, lexicographically
sorted unresolved batch-code and school-name sets — sorted, without
duplicates, and with exactly the members of the accumulated lists — and the
reporting step passes the database state through unchanged. -/
theorem summary_report_spec (now : Nat) (lines : List Str) (db : Store) :
    (emit_report (runOn now lines (initState db))).1.inserted
      = (runOn now lines (initState db)).inserted ∧
    (emit_report (runOn now lines (initState db))).1.skipped
      = (runOn now lines (initState db)).skipped ∧
    List.Sorted rle (emit_report (runOn now lines (initState db))).1.missing_batches ∧
    (emit_report (runOn now lines (initState db))).1.missing_batches.Nodup ∧
    (∀ k, k ∈ (emit_report (runOn now lines (initState db))).1.missing_batches ↔
      k ∈ (runOn now lines (initState db)).missing_batches) ∧
    List.Sorted rle (emit_report (runOn now lines (initState db))).1.missing_schools ∧
    (emit_report (runOn now lines (initState db))).1.missing_schools.Nodup ∧
    (∀ n, n ∈ (emit_report (runOn now lines (initState db))).1.missing_schools ↔
      n ∈ (runOn now lines (initState db)).missing_schools) ∧
    (emit_report (runOn now lines (initState db))).2
      = (runOn now lines (initState db)).db :=
  ⟨rfl, rfl, sorted_set_sorted _, sorted_set_nodup _, fun k => sorted_set_mem _ k,
   sorted_set_sorted _, sorted_set_nodup _, fun n => sorted_set_mem _ n, rfl⟩

/-- C9: a whole run never creates or mutates batch or school records and
never updates or deletes an existing school_batch row: the final store
keeps the batch and school tables unchanged, its school_batch table is the
original list with rows appended only, and each appended row's composite
key was absent from the store just before that row's own insertion. -/
theorem run_frame_effect (now : Nat) (lines : List Str) (db : Store) :
    (runOn now lines (initState db)).db.batches = db.batches ∧
    (runOn now lines (initState db)).db.schools = db.schools ∧
    ∃ l, (runOn now lines (initState db)).db.school_batch = db.school_batch ++ l ∧
      freshExt db.school_batch l := by
  obtain ⟨h1, h2, h3, -⟩ := runOn_spec now lines (initState db)
  exact ⟨h1, h2, h3⟩

/-- C10: load_env never overwrites an existing environment variable: lines
that are blank, start with '#', or contain no '=' are ignored; a processed
line either leaves the environment unchanged or appends a single pair whose
key is non-empty and was absent; and after load_env every pre-existing
key's value is unchanged. -/
theorem load_env_no_overwrite :
    (∀ (env : Env) (raw : Str),
      ((pyStrip raw).isEmpty = true ∨ startsWithHash (pyStrip raw) = true ∨
        containsEq (pyStrip raw) = false) → processEnvLine env raw = env) ∧
    (∀ (env : Env) (raw : Str), processEnvLine env raw = env ∨
      ∃ k v, k ≠ [] ∧ envHas env k = false ∧ processEnvLine env raw = env ++ [(k, v)]) ∧
    (∀ (env : Env) (file : Option (List Str)) (k : Str), envHas env k = true →
      getEnvVal (load_env env file) k = getEnvVal env k) := by
  refine ⟨processEnvLine_skip, processEnvLine_cases, ?_⟩
  intro env file k h
  cases file with
  | none => rfl
  | some lines => exact (foldl_env_of_has lines env k h).2

/-- C10 witness: a comment line is ignored, and loading a file that
redefines HOME leaves the pre-existing HOME value unchanged. -/
theorem load_env_no_overwrite_witness :
    processEnvLine [] "# comment".data = [] ∧
    getEnvVal (load_env [("HOME".data, "x".data)]
        (some ["HOME=y".data, "DB=z".data])) "HOME".data
      = getEnvVal [("HOME".data, "x".data)] "HOME".data :=
  ⟨load_env_no_overwrite.1 [] "# comment".data (by decide),
   load_env_no_overwrite.2.2 [("HOME".data, "x".data)]
     (some ["HOME=y".data, "DB=z".data]) "HOME".data (by decide)⟩

end SeedSchoolBatch
